import Mathlib

/-!
Verification of the humanize-units library: a shallow embedding of the
unit-table data model and the formatting pipeline, together with theorems
about breakpoint selection, table validation, and output assembly.

JavaScript numbers are modelled as exact rationals (`ℚ`) extended with the
IEEE special values `NaN` and the two infinities (`JSNum`); `null` and
`undefined` inputs are modelled by `Option.none`.  Thrown errors are
modelled by `Except`.  The platform primitive `Intl.NumberFormat` is not
part of the repository, so the formatter it produces is a parameter
(`IntlNumberFormat`) of the embedding; a concrete executable stand-in
(`intlFormatModel`) is provided for evaluating the pipeline at concrete
inputs, and it agrees with the `en-US` default-options formatter at every
input at which it is evaluated in this file (inputs whose rendering needs
no significant-digit rounding).
-/

namespace HumanizeUnits

/-- Decidable equality for `Except`, used to evaluate the pipeline on
concrete inputs. -/
instance {ε α : Type} [DecidableEq ε] [DecidableEq α] : DecidableEq (Except ε α) := fun a b =>
  match a, b with
  | Except.ok x, Except.ok y =>
    if h : x = y then Decidable.isTrue (by rw [h]) else Decidable.isFalse (by simp [h])
  | Except.error x, Except.error y =>
    if h : x = y then Decidable.isTrue (by rw [h]) else Decidable.isFalse (by simp [h])
  | Except.ok _, Except.error _ => Decidable.isFalse (by simp)
  | Except.error _, Except.ok _ => Decidable.isFalse (by simp)

/-- Unit breakpoint from `units.ts`: `value` is the threshold and `unit`
holds the suffix text appended to the formatted number.  The older
generation of `units.ts` calls this second field `notation`; both variants
carry the same data, so one structure embeds both. -/
structure Unit where
  value : ℚ
  unit : String
deriving DecidableEq

/-- Array of units ordered from largest to smallest magnitude
(`UnitArray` in `units.ts`). -/
abbrev UnitArray := List Unit

/-- SI unit table from `units.ts`: thresholds are `10 ** 24` down to
`10 ** -12`, written here as exact rationals. -/
def SI : UnitArray :=
  [⟨1000000000000000000000000, "Y"⟩,
   ⟨1000000000000000000000, "Z"⟩,
   ⟨1000000000000000000, "E"⟩,
   ⟨1000000000000000, "P"⟩,
   ⟨1000000000000, "T"⟩,
   ⟨1000000000, "G"⟩,
   ⟨1000000, "M"⟩,
   ⟨1000, "k"⟩,
   ⟨1, ""⟩,
   ⟨mkRat 1 1000, "m"⟩,
   ⟨mkRat 1 1000000, "u"⟩,
   ⟨mkRat 1 1000000000, "n"⟩,
   ⟨mkRat 1 1000000000000, "p"⟩]

/-- Entry of the `SI_PREFIXES` table in `units.ts`.  The source field
named after the SI magnitude letter is called `pre` here because its
source name is a reserved word in Lean. -/
structure SiPrefixEntry where
  pre : String
  exponent : ℤ
deriving DecidableEq

/-- The `SI_PREFIXES` constant from `units.ts`. -/
def SI_PREFIXES : List SiPrefixEntry :=
  [⟨"Y", 24⟩, ⟨"Z", 21⟩, ⟨"E", 18⟩, ⟨"P", 15⟩, ⟨"T", 12⟩, ⟨"G", 9⟩, ⟨"M", 6⟩,
   ⟨"k", 3⟩, ⟨"", 0⟩, ⟨"m", -3⟩, ⟨"u", -6⟩, ⟨"n", -9⟩, ⟨"p", -12⟩,
   ⟨"f", -15⟩, ⟨"a", -18⟩, ⟨"z", -21⟩, ⟨"y", -24⟩]

/-- Options of `siUnits` (`SiUnitsOptions` in `units.ts`); both fields are
optional in the source. -/
structure SiUnitsOptions where
  minExponent : Option ℤ
  maxExponent : Option ℤ
deriving DecidableEq

/-- The `siUnits` generator from `units.ts`: filter the SI magnitude table
to the requested exponent range, map each entry to a unit whose threshold
is `10 ** exponent` and whose text is the magnitude letter followed by the
given trailing text, and sort by threshold descending (the source sorts
with the comparator `(a, b) => b.value - a.value`, a stable sort modelled
by `List.mergeSort`). -/
def siUnits (pfx : String) (options : SiUnitsOptions) : UnitArray :=
  let minExponent := options.minExponent.getD (-9)
  let maxExponent := options.maxExponent.getD 15
  ((SI_PREFIXES.filter
      (fun e => decide (minExponent ≤ e.exponent ∧ e.exponent ≤ maxExponent))).map
    (fun e => (⟨(10 : ℚ) ^ e.exponent, e.pre ++ pfx⟩ : Unit))).mergeSort
    (fun a b => decide (b.value ≤ a.value))

/-- Errors thrown by the library.  `emptyTable` is the error with message
"humanizeUnit requires at least one unit definition." and
`nonPositiveThreshold` is the error with message "humanizeUnit only
supports units with a positive value." (the spec calls them
`EmptyTableError` and `NonPositiveThresholdError`). -/
inductive HumanizeError where
  | emptyTable
  | nonPositiveThreshold
deriving DecidableEq

/-- A JavaScript `number`: an exact rational or one of the IEEE special
values. -/
inductive JSNum where
  | nan
  | posInf
  | negInf
  | finite (q : ℚ)
deriving DecidableEq

/-- Options of `humanizeUnit` (`HumanizeUnitOptions` in
`humanizeUnit.ts`); every field is optional in the source.  The `postfix`
option of the source is called `pfx` here because its source name is a
reserved word in Lean. -/
structure HumanizeUnitOptions where
  units : Option UnitArray
  pfx : Option String
  significantDigits : Option ℕ
  minimumSignificantDigits : Option ℕ
  locale : Option String
  useGrouping : Option Bool
  unitSeparator : Option String
  emptyValue : Option String

/-- Option resolution: each omitted field falls back to the corresponding
`DEFAULT_OPTIONS` field, exactly as the destructuring with per-field
defaults (and the `options ?? DEFAULT_OPTIONS` fallback, which yields the
same values) does in the source.  The default unit table is `SI`. -/
def HumanizeUnitOptions.unitsR (o : HumanizeUnitOptions) : UnitArray := o.units.getD SI

/-- Resolved `postfix` option; default is the empty string. -/
def HumanizeUnitOptions.pfxR (o : HumanizeUnitOptions) : String := o.pfx.getD ""

/-- Resolved `significantDigits` option; default 3. -/
def HumanizeUnitOptions.significantDigitsR (o : HumanizeUnitOptions) : ℕ :=
  o.significantDigits.getD 3

/-- Resolved `minimumSignificantDigits` option; default 1. -/
def HumanizeUnitOptions.minimumSignificantDigitsR (o : HumanizeUnitOptions) : ℕ :=
  o.minimumSignificantDigits.getD 1

/-- Resolved `locale` option; default `en-US`. -/
def HumanizeUnitOptions.localeR (o : HumanizeUnitOptions) : String := o.locale.getD "en-US"

/-- Resolved `useGrouping` option; default `false`. -/
def HumanizeUnitOptions.useGroupingR (o : HumanizeUnitOptions) : Bool :=
  o.useGrouping.getD false

/-- Resolved `unitSeparator` option; default is the empty string. -/
def HumanizeUnitOptions.unitSeparatorR (o : HumanizeUnitOptions) : String :=
  o.unitSeparator.getD ""

/-- Resolved `emptyValue` option; default is the empty string. -/
def HumanizeUnitOptions.emptyValueR (o : HumanizeUnitOptions) : String :=
  o.emptyValue.getD ""

/-- The options record with every field omitted (a call such as
`humanizeUnit(v)` resolves every option to its default). -/
def defaultOptions : HumanizeUnitOptions :=
  ⟨none, none, none, none, none, none, none, none⟩

/-- The `selectUnit` helper of `humanizeUnit.ts`: take the absolute value,
use the last table entry as the fallback (throwing when the table is
empty, since indexing past the end yields `undefined` in the source), and
otherwise return the first entry whose threshold is at most the absolute
value, the fallback when there is none.  The source comparison is
`absoluteValue >= unit.value`. -/
def selectUnit (value : ℚ) (units : UnitArray) : Except HumanizeError Unit :=
  let absoluteValue := |value|
  match units.getLast? with
  | none => Except.error HumanizeError.emptyTable
  | some fallbackUnit =>
      Except.ok ((units.find? (fun u => decide (u.value ≤ absoluteValue))).getD fallbackUnit)

/-- The `normalizeUnits` helper of the earlier generation of
`humanizeUnit.ts`: throw on an empty table, sort descending by threshold
(stable sort with comparator `(a, b) => b.value - a.value`), then throw if
any entry has a non-positive threshold, else return the sorted copy. -/
def normalizeUnits (units : UnitArray) : Except HumanizeError UnitArray :=
  if units.length = 0 then Except.error HumanizeError.emptyTable
  else
    let sorted := units.mergeSort (fun a b => decide (b.value ≤ a.value))
    if sorted.any (fun u => decide (u.value ≤ 0)) then
      Except.error HumanizeError.nonPositiveThreshold
    else Except.ok sorted

/-- The external `Intl.NumberFormat` platform primitive, abstracted as a
function from the constructor arguments used by the source (locale,
maximum significant digits, minimum significant digits, grouping flag) to
a rendering function. -/
abbrev IntlNumberFormat := String → ℕ → ℕ → Bool → ℚ → String

/-- The divisor used by `humanizeUnit`: the selected unit's threshold with
the source's falsy-value fallback `targetUnit.value || 1`. -/
def dividerOf (u : Unit) : ℚ := if u.value = 0 then 1 else u.value

/-- The formatter instance constructed by `humanizeUnit` from the resolved
options, as in `new Intl.NumberFormat(locale, {...})`. -/
def formatterOf (mkFmt : IntlNumberFormat) (o : HumanizeUnitOptions) : ℚ → String :=
  mkFmt o.localeR o.significantDigitsR o.minimumSignificantDigitsR o.useGroupingR

/-- The separator inserted by `humanizeUnit`: the resolved `unitSeparator`
when `targetUnit.unit || postfix` is truthy (one of the two strings is
non-empty), the empty string otherwise. -/
def separatorOf (u : Unit) (o : HumanizeUnitOptions) : String :=
  if u.unit = "" ∧ o.pfxR = "" then "" else o.unitSeparatorR

/-- The `humanizeUnit` entry point of `humanizeUnit.ts`: `null`/`undefined`
and `NaN` inputs yield the resolved `emptyValue`; infinities are
stringified as-is; otherwise the unit is selected for the value (with `0`
replaced by `1` before selection, per `value === 0 ? 1 : value`), the
value is divided by the selected threshold, rendered by the constructed
formatter, and concatenated with the separator, the unit text, and the
trailing text. -/
def humanizeUnit (mkFmt : IntlNumberFormat) (value : Option JSNum)
    (options : HumanizeUnitOptions) : Except HumanizeError String :=
  match value with
  | none => Except.ok options.emptyValueR
  | some JSNum.nan => Except.ok options.emptyValueR
  | some JSNum.posInf => Except.ok "Infinity"
  | some JSNum.negInf => Except.ok "-Infinity"
  | some (JSNum.finite v) =>
      match selectUnit (if v = 0 then 1 else v) options.unitsR with
      | Except.error e => Except.error e
      | Except.ok targetUnit =>
          Except.ok (formatterOf mkFmt options (v / dividerOf targetUnit) ++
            separatorOf targetUnit options ++ targetUnit.unit ++ options.pfxR)

/-- Helper for the concrete formatter model: repeatedly divide by ten
while the trailing digit is zero, returning the stripped number and the
count of removed zeros; the first argument is fuel bounding the number of
steps. -/
def stripTrailingZeros : ℕ → ℕ → ℕ × ℕ
  | 0, n => (n, 0)
  | fuel + 1, n =>
      if n % 10 = 0 ∧ n ≠ 0 then
        let p := stripTrailingZeros fuel (n / 10)
        (p.1, p.2 + 1)
      else (n, 0)

/-- Left-pad a digit string with zeros to the given length. -/
def padZeros (s : String) (k : ℕ) : String :=
  String.mk (List.replicate (k - s.length) '0') ++ s

/-- Exact decimal rendering of a non-negative rational with at most six
fractional digits (computed from the numerator and denominator so that it
evaluates inside the kernel). -/
def ratToDecimalNonneg (q : ℚ) : String :=
  let scaled : ℤ := q.num * 1000000 / (q.den : ℤ)
  let n : ℕ := scaled.toNat
  if n = 0 then "0"
  else
    let p := stripTrailingZeros 6 n
    let fracLen := 6 - p.2
    if fracLen = 0 then toString p.1
    else toString (p.1 / 10 ^ fracLen) ++ "." ++ padZeros (toString (p.1 % 10 ^ fracLen)) fracLen

/-- Exact signed decimal rendering of a rational. -/
def ratToDecimal (q : ℚ) : String :=
  if q < 0 then "-" ++ ratToDecimalNonneg (-q) else ratToDecimalNonneg q

/-- Concrete stand-in for the external `Intl.NumberFormat` primitive: the
exact decimal rendering, independent of locale and grouping.  It agrees
with `Intl.NumberFormat` under the library's default options at every
input at which the pipeline is evaluated in this file (all such inputs
render exactly within three significant digits). -/
def intlFormatModel : IntlNumberFormat := fun _ _ _ _ q => ratToDecimal q

/-- Specification-side characterization of breakpoint selection: `u` is
the first entry of `l`, in the order of `l`, whose threshold is at most
`a`. -/
def IsFirstLE (a : ℚ) (l : UnitArray) (u : Unit) : Prop :=
  ∃ i : ℕ, ∃ hi : i < l.length, l.get ⟨i, hi⟩ = u ∧ u.value ≤ a ∧
    ∀ j : ℕ, ∀ hj : j < l.length, j < i → a < (l.get ⟨j, hj⟩).value

/-- Options record carrying the single zero-threshold entry of the spec's
threshold-validation example. -/
def zeroThresholdOptions : HumanizeUnitOptions :=
  ⟨some [⟨0, ""⟩], none, none, none, none, none, none, none⟩

/-- A valid unit table supplied smallest-first (the reverse of the sorted
order the formatter's documentation asks for). -/
def ascTestOptions : HumanizeUnitOptions :=
  ⟨some [⟨1, ""⟩, ⟨5, "Q"⟩], none, none, none, none, none, none, none⟩

/-- The same table as `ascTestOptions`, sorted descending. -/
def descTestOptions : HumanizeUnitOptions :=
  ⟨some [⟨5, "Q"⟩, ⟨1, ""⟩], none, none, none, none, none, none, none⟩

/-- Options record for the C6 witness: one unit with a non-empty suffix
and a blank separator option. -/
def separatorTestOptions : HumanizeUnitOptions :=
  ⟨some [⟨2, "K"⟩], none, none, none, none, none, some " ", none⟩

/-- Options record for the C7 witness. -/
def signTestOptions : HumanizeUnitOptions :=
  ⟨some [⟨5, "Q"⟩, ⟨1, ""⟩], none, none, none, none, none, none, none⟩

/-- Characterization of `List.find?`: either no element satisfies the
predicate, or the result is the element at the first satisfying index. -/
theorem find?_first {α : Type} (p : α → Bool) (l : List α) :
    (l.find? p = none ∧ ∀ x ∈ l, p x = false) ∨
      ∃ i : ℕ, ∃ hi : i < l.length, l.find? p = some (l.get ⟨i, hi⟩) ∧
        p (l.get ⟨i, hi⟩) = true ∧
        ∀ j : ℕ, ∀ hj : j < l.length, j < i → p (l.get ⟨j, hj⟩) = false := by
  induction l with
  | nil => exact Or.inl ⟨rfl, by simp⟩
  | cons a l ih =>
    cases hp : p a with
    | true =>
      refine Or.inr ⟨0, Nat.succ_pos _, ?_, ?_, ?_⟩
      · simp only [List.find?_cons, hp, List.get]
      · simpa [List.get] using hp
      · intro j hj hj0; omega
    | false =>
      rcases ih with ⟨h1, h2⟩ | ⟨i, hi, h1, h2, h3⟩
      · refine Or.inl ⟨?_, ?_⟩
        · simp only [List.find?_cons, hp]
          exact h1
        · intro x hx
          rcases List.mem_cons.mp hx with rfl | hx
          · exact hp
          · exact h2 x hx
      · refine Or.inr ⟨i + 1, Nat.succ_lt_succ hi, ?_, ?_, ?_⟩
        · simp only [List.find?_cons, hp, List.get]
          exact h1
        · simpa [List.get] using h2
        · intro j hj hji
          cases j with
          | zero => simpa [List.get] using hp
          | succ k =>
            have hk : k < l.length := Nat.lt_of_succ_lt_succ hj
            have hres := h3 k hk (Nat.lt_of_succ_lt_succ hji)
            simpa [List.get] using hres

/-- Breakpoint selection on a non-empty table always succeeds and returns
either the first entry (in table order) whose threshold is at most the
absolute value, or the last entry when every threshold is larger. -/
theorem selectUnit_spec (v : ℚ) (l : UnitArray) (hne : l ≠ []) :
    ∃ u, selectUnit v l = Except.ok u ∧
      (IsFirstLE |v| l u ∨ ((∀ w ∈ l, |v| < w.value) ∧ l.getLast? = some u)) := by
  have hlast : l.getLast? = some (l.getLast hne) := List.getLast?_eq_getLast l hne
  rcases find?_first (fun u => decide (u.value ≤ |v|)) l with ⟨h1, h2⟩ | ⟨i, hi, h1, h2, h3⟩
  · refine ⟨l.getLast hne, ?_, Or.inr ⟨?_, hlast⟩⟩
    · simp only [selectUnit, hlast, h1, Option.getD_none]
    · intro w hw
      have hw2 := h2 w hw
      rw [decide_eq_false_iff_not, not_le] at hw2
      exact hw2
  · refine ⟨l.get ⟨i, hi⟩, ?_, Or.inl ⟨i, hi, rfl, ?_, ?_⟩⟩
    · simp only [selectUnit, hlast, h1, Option.getD_some]
    · exact of_decide_eq_true h2
    · intro j hj hji
      have hj2 := h3 j hj hji
      rw [decide_eq_false_iff_not, not_le] at hj2
      exact hj2

/-- Selection only looks at the absolute value, so negating the input does
not change the selected unit. -/
theorem selectUnit_neg (v : ℚ) (l : UnitArray) : selectUnit (-v) l = selectUnit v l := by
  simp only [selectUnit, abs_neg]

/-- The only error `selectUnit` can produce is the empty-table error. -/
theorem selectUnit_error {v : ℚ} {l : UnitArray} {e : HumanizeError}
    (h : selectUnit v l = Except.error e) : e = HumanizeError.emptyTable := by
  cases l with
  | nil =>
    simp only [selectUnit, List.getLast?] at h
    injection h with h
    exact h.symm
  | cons a t =>
    have hlast : (a :: t).getLast? = some ((a :: t).getLast (by simp)) :=
      List.getLast?_eq_getLast _ (by simp)
    simp only [selectUnit, hlast] at h
    exact Except.noConfusion h

/-- A succeeding selection returns a member of the table. -/
theorem selectUnit_mem {v : ℚ} {l : UnitArray} {u : Unit}
    (h : selectUnit v l = Except.ok u) : u ∈ l := by
  cases hl : l.getLast? with
  | none =>
    simp only [selectUnit, hl] at h
    exact Except.noConfusion h
  | some w =>
    simp only [selectUnit, hl] at h
    injection h with h
    cases hf : l.find? (fun x => decide (x.value ≤ |v|)) with
    | none =>
      rw [hf, Option.getD_none] at h
      subst h
      cases l with
      | nil => cases hl
      | cons a t =>
        have : (a :: t).getLast? = some ((a :: t).getLast (by simp)) :=
          List.getLast?_eq_getLast _ (by simp)
        rw [this] at hl
        injection hl with hl
        rw [← hl]
        exact List.getLast_mem _
    | some w2 =>
      rw [hf, Option.getD_some] at h
      subst h
      exact List.mem_of_find?_eq_some hf

/-- Unfolding of `humanizeUnit` on a finite input once the selected unit
is known. -/
theorem humanizeUnit_finite (mkFmt : IntlNumberFormat) (v : ℚ) (o : HumanizeUnitOptions)
    (u : Unit) (h : selectUnit (if v = 0 then 1 else v) o.unitsR = Except.ok u) :
    humanizeUnit mkFmt (some (JSNum.finite v)) o =
      Except.ok (formatterOf mkFmt o (v / dividerOf u) ++ separatorOf u o ++
        u.unit ++ o.pfxR) := by
  simp only [humanizeUnit, h]

/-- A selection error propagates unchanged out of `humanizeUnit`. -/
theorem humanizeUnit_error_of_selectUnit (mkFmt : IntlNumberFormat) (v : ℚ)
    (o : HumanizeUnitOptions) (e : HumanizeError)
    (h : selectUnit (if v = 0 then 1 else v) o.unitsR = Except.error e) :
    humanizeUnit mkFmt (some (JSNum.finite v)) o = Except.error e := by
  simp only [humanizeUnit, h]

/-- C1: for every finite value and every non-empty, positive, strictly
descending unit table, selection succeeds with exactly one unit: the first
entry in the (descending) table order whose threshold is at most the
absolute value of the input, or the last (smallest-threshold) entry when
every threshold exceeds that absolute value. -/
theorem selectUnit_first_le (v : ℚ) (units : UnitArray) (hne : units ≠ [])
    (hpos : ∀ u ∈ units, 0 < u.value)
    (hsorted : units.Pairwise (fun a b => b.value < a.value)) :
    ∃ u, selectUnit v units = Except.ok u ∧
      (IsFirstLE |v| units u ∨
        ((∀ w ∈ units, |v| < w.value) ∧ units.getLast? = some u)) :=
  selectUnit_spec v units hne

/-- Witness for C1 at the concrete table `[(1000, k), (1, "")]` and value
`5`. -/
theorem selectUnit_first_le_witness :
    ∃ u, selectUnit 5 [⟨1000, "k"⟩, ⟨1, ""⟩] = Except.ok u ∧
      (IsFirstLE |(5 : ℚ)| [⟨1000, "k"⟩, ⟨1, ""⟩] u ∨
        ((∀ w ∈ ([⟨1000, "k"⟩, ⟨1, ""⟩] : UnitArray), |(5 : ℚ)| < w.value) ∧
          ([⟨1000, "k"⟩, ⟨1, ""⟩] : UnitArray).getLast? = some u)) :=
  selectUnit_first_le 5 [⟨1000, "k"⟩, ⟨1, ""⟩] (by decide) (by decide) (by decide)

/-- C4: with an explicitly supplied empty unit table, formatting a finite
value yields the empty-table error, which propagates to the caller as is,
with no default-table substitution and no partial result. -/
theorem humanizeUnit_empty_table_error (mkFmt : IntlNumberFormat) (q : ℚ)
    (o : HumanizeUnitOptions) (h : o.units = some []) :
    humanizeUnit mkFmt (some (JSNum.finite q)) o = Except.error HumanizeError.emptyTable := by
  have hu : o.unitsR = [] := by simp [HumanizeUnitOptions.unitsR, h]
  have hsel : selectUnit (if q = 0 then 1 else q) o.unitsR =
      Except.error HumanizeError.emptyTable := by
    rw [hu]; rfl
  exact humanizeUnit_error_of_selectUnit mkFmt q o _ hsel

/-- Witness for C4 at value `10` and an options record carrying an empty
table. -/
theorem humanizeUnit_empty_table_error_witness :
    humanizeUnit intlFormatModel (some (JSNum.finite 10))
      ⟨some [], none, none, none, none, none, none, none⟩ =
      Except.error HumanizeError.emptyTable :=
  humanizeUnit_empty_table_error intlFormatModel 10
    ⟨some [], none, none, none, none, none, none, none⟩ rfl

/-- C5: for every options record (also with an empty or invalid table) and
every formatter, `null`/`undefined` and `NaN` inputs return the resolved
`emptyValue`, positive infinity returns the string `Infinity`, and
negative infinity returns the string `-Infinity`; none of these inputs
reaches table validation, unit selection, or number formatting, and none
of them can produce an error. -/
theorem humanizeUnit_nonfinite_total (mkFmt : IntlNumberFormat) (o : HumanizeUnitOptions) :
    humanizeUnit mkFmt none o = Except.ok o.emptyValueR ∧
    humanizeUnit mkFmt (some JSNum.nan) o = Except.ok o.emptyValueR ∧
    humanizeUnit mkFmt (some JSNum.posInf) o = Except.ok "Infinity" ∧
    humanizeUnit mkFmt (some JSNum.negInf) o = Except.ok "-Infinity" :=
  ⟨rfl, rfl, rfl, rfl⟩

/-- A concatenation of strings is empty exactly when both parts are. -/
theorem string_append_eq_empty {a b : String} : a ++ b = "" ↔ a = "" ∧ b = "" := by
  constructor
  · intro h
    have h2 := congrArg String.data h
    rw [String.data_append] at h2
    have h3 := List.append_eq_nil.mp h2
    exact ⟨String.ext h3.1, String.ext h3.2⟩
  · rintro ⟨rfl, rfl⟩
    rfl


/-- C2 (counterexample): formatting `10` with the unit table
`[{value: 0, unit: ""}]` does not throw: it returns the string `10`, the
zero threshold being replaced by the divider fallback `1`. -/
theorem humanizeUnit_zero_threshold_ok :
    humanizeUnit intlFormatModel (some (JSNum.finite 10)) zeroThresholdOptions =
      Except.ok "10" := by
  have hsel : selectUnit (if (10 : ℚ) = 0 then 1 else 10) zeroThresholdOptions.unitsR =
      Except.ok ⟨0, ""⟩ := by decide
  rw [humanizeUnit_finite intlFormatModel 10 zeroThresholdOptions ⟨0, ""⟩ hsel]
  have hd : (10 : ℚ) / dividerOf ⟨0, ""⟩ = 10 := by norm_num [dividerOf]
  rw [hd]
  decide

/-- C2 (amended): the formatter performs no threshold validation, so no
input and no options record can make it produce the non-positive-threshold
error; a table entry with a non-positive threshold is simply used as
supplied. -/
theorem humanizeUnit_no_nonPositiveThreshold (mkFmt : IntlNumberFormat)
    (value : Option JSNum) (o : HumanizeUnitOptions) :
    humanizeUnit mkFmt value o ≠ Except.error HumanizeError.nonPositiveThreshold := by
  match value with
  | none => simp [humanizeUnit]
  | some JSNum.nan => simp [humanizeUnit]
  | some JSNum.posInf => simp [humanizeUnit]
  | some JSNum.negInf => simp [humanizeUnit]
  | some (JSNum.finite v) =>
    cases hsel : selectUnit (if v = 0 then 1 else v) o.unitsR with
    | error e =>
      rw [humanizeUnit_error_of_selectUnit mkFmt v o e hsel]
      have he := selectUnit_error hsel
      subst he
      simp
    | ok u =>
      rw [humanizeUnit_finite mkFmt v o u hsel]
      simp



/-- C3 (counterexample): two permutations of the same valid unit table
yield different outputs for the value `5`, so the formatter is not
invariant under table permutation. -/
theorem humanizeUnit_order_dependent :
    ascTestOptions.unitsR.Perm descTestOptions.unitsR ∧
    (∀ u ∈ ascTestOptions.unitsR, 0 < u.value) ∧
    humanizeUnit intlFormatModel (some (JSNum.finite 5)) ascTestOptions = Except.ok "5" ∧
    humanizeUnit intlFormatModel (some (JSNum.finite 5)) descTestOptions = Except.ok "1Q" ∧
    ("5" : String) ≠ "1Q" := by
  refine ⟨by decide, by decide, ?_, ?_, by decide⟩
  · have hsel : selectUnit (if (5 : ℚ) = 0 then 1 else 5) ascTestOptions.unitsR =
        Except.ok ⟨1, ""⟩ := by decide
    rw [humanizeUnit_finite intlFormatModel 5 ascTestOptions ⟨1, ""⟩ hsel]
    have hd : (5 : ℚ) / dividerOf ⟨1, ""⟩ = 5 := by norm_num [dividerOf]
    rw [hd]
    decide
  · have hsel : selectUnit (if (5 : ℚ) = 0 then 1 else 5) descTestOptions.unitsR =
        Except.ok ⟨5, "Q"⟩ := by decide
    rw [humanizeUnit_finite intlFormatModel 5 descTestOptions ⟨5, "Q"⟩ hsel]
    have hd : (5 : ℚ) / dividerOf ⟨5, "Q"⟩ = 1 := by norm_num [dividerOf]
    rw [hd]
    decide

/-- C3 (amended): the formatter does not sort the table defensively: the
unit it uses is the first entry, in the caller-given order, whose
threshold is at most the absolute value of the (zero-adjusted) input, with
the last given entry as fallback; consequently the caller-supplied entry
order can affect the output. -/
theorem humanizeUnit_uses_given_order (mkFmt : IntlNumberFormat) (v : ℚ)
    (o : HumanizeUnitOptions) (hne : o.unitsR ≠ []) :
    ∃ u, (IsFirstLE |if v = 0 then 1 else v| o.unitsR u ∨
        ((∀ w ∈ o.unitsR, |if v = 0 then 1 else v| < w.value) ∧
          o.unitsR.getLast? = some u)) ∧
      humanizeUnit mkFmt (some (JSNum.finite v)) o =
        Except.ok (formatterOf mkFmt o (v / dividerOf u) ++ separatorOf u o ++
          u.unit ++ o.pfxR) := by
  obtain ⟨u, hsel, hchar⟩ := selectUnit_spec (if v = 0 then 1 else v) o.unitsR hne
  exact ⟨u, hchar, humanizeUnit_finite mkFmt v o u hsel⟩

/-- Witness for the amended C3 at value `7` and the smallest-first
table. -/
theorem humanizeUnit_uses_given_order_witness :
    ∃ u, (IsFirstLE |if (7 : ℚ) = 0 then 1 else 7| ascTestOptions.unitsR u ∨
        ((∀ w ∈ ascTestOptions.unitsR, |if (7 : ℚ) = 0 then 1 else 7| < w.value) ∧
          ascTestOptions.unitsR.getLast? = some u)) ∧
      humanizeUnit intlFormatModel (some (JSNum.finite 7)) ascTestOptions =
        Except.ok (formatterOf intlFormatModel ascTestOptions (7 / dividerOf u) ++
          separatorOf u ascTestOptions ++ u.unit ++ ascTestOptions.pfxR) :=
  humanizeUnit_uses_given_order intlFormatModel 7 ascTestOptions (by decide)

/-- C6: for every finite value and every options record with a non-empty
table, the output is the rendered number followed by the selected unit's
appended suffix text (its unit text plus the resolved trailing text), with
the resolved `unitSeparator` in between exactly when that suffix text is
non-empty; when the suffix text is empty no separator is inserted, even a
non-empty one. -/
theorem humanizeUnit_separator_iff_suffix (mkFmt : IntlNumberFormat) (v : ℚ)
    (o : HumanizeUnitOptions) (hne : o.unitsR ≠ []) :
    ∃ u s, selectUnit (if v = 0 then 1 else v) o.unitsR = Except.ok u ∧
      humanizeUnit mkFmt (some (JSNum.finite v)) o = Except.ok s ∧
      (u.unit ++ o.pfxR = "" → s = formatterOf mkFmt o (v / dividerOf u)) ∧
      (u.unit ++ o.pfxR ≠ "" →
        s = formatterOf mkFmt o (v / dividerOf u) ++ o.unitSeparatorR ++
          (u.unit ++ o.pfxR)) := by
  obtain ⟨u, hsel, _⟩ := selectUnit_spec (if v = 0 then 1 else v) o.unitsR hne
  refine ⟨u, _, hsel, humanizeUnit_finite mkFmt v o u hsel, ?_, ?_⟩
  · intro hsuf
    obtain ⟨h1, h2⟩ := string_append_eq_empty.mp hsuf
    simp [separatorOf, h1, h2]
  · intro hsuf
    have hsep : separatorOf u o = o.unitSeparatorR := by
      rw [separatorOf, if_neg]
      rintro ⟨h1, h2⟩
      exact hsuf (by rw [h1, h2]; rfl)
    rw [hsep]
    exact String.append_assoc _ _ _


/-- Witness for C6 at value `6` and a single-entry table with separator
option set to a space. -/
theorem humanizeUnit_separator_iff_suffix_witness :
    ∃ u s, selectUnit (if (6 : ℚ) = 0 then 1 else 6) separatorTestOptions.unitsR =
        Except.ok u ∧
      humanizeUnit intlFormatModel (some (JSNum.finite 6)) separatorTestOptions =
        Except.ok s ∧
      (u.unit ++ separatorTestOptions.pfxR = "" →
        s = formatterOf intlFormatModel separatorTestOptions (6 / dividerOf u)) ∧
      (u.unit ++ separatorTestOptions.pfxR ≠ "" →
        s = formatterOf intlFormatModel separatorTestOptions (6 / dividerOf u) ++
          separatorTestOptions.unitSeparatorR ++
          (u.unit ++ separatorTestOptions.pfxR)) :=
  humanizeUnit_separator_iff_suffix intlFormatModel 6 separatorTestOptions (by decide)

/-- C9: an input of exactly `0` is replaced by `1` before breakpoint
selection, so whenever the given table has an entry with threshold at most
`1`, formatting `0` uses the first such entry in the given order (not the
smallest-threshold fallback) and renders `0` scaled by that entry's
threshold. -/
theorem humanizeUnit_zero_uses_one (mkFmt : IntlNumberFormat) (o : HumanizeUnitOptions)
    (h : ∃ u ∈ o.unitsR, u.value ≤ 1) :
    ∃ u, IsFirstLE 1 o.unitsR u ∧
      humanizeUnit mkFmt (some (JSNum.finite 0)) o =
        Except.ok (formatterOf mkFmt o (0 / u.value) ++ separatorOf u o ++
          u.unit ++ o.pfxR) := by
  obtain ⟨w, hwmem, hw1⟩ := h
  have hne : o.unitsR ≠ [] := List.ne_nil_of_mem hwmem
  obtain ⟨u, hsel, hchar⟩ := selectUnit_spec 1 o.unitsR hne
  have habs : |(1 : ℚ)| = 1 := abs_one
  rcases hchar with hfirst | ⟨hall, _⟩
  · refine ⟨u, by rwa [habs] at hfirst, ?_⟩
    have hsel2 : selectUnit (if (0 : ℚ) = 0 then 1 else 0) o.unitsR = Except.ok u := by
      rw [if_pos rfl]
      exact hsel
    rw [humanizeUnit_finite mkFmt 0 o u hsel2]
    rw [show (0 : ℚ) / dividerOf u = 0 / u.value by rw [zero_div, zero_div]]
  · have hlt := hall w hwmem
    rw [habs] at hlt
    exact absurd hlt (not_lt.mpr hw1)

/-- Witness for C9: with everything defaulted (`SI` table), formatting `0`
uses the threshold-1 entry. -/
theorem humanizeUnit_zero_uses_one_witness :
    ∃ u, IsFirstLE 1 defaultOptions.unitsR u ∧
      humanizeUnit intlFormatModel (some (JSNum.finite 0)) defaultOptions =
        Except.ok (formatterOf intlFormatModel defaultOptions (0 / u.value) ++
          separatorOf u defaultOptions ++ u.unit ++ defaultOptions.pfxR) :=
  humanizeUnit_zero_uses_one intlFormatModel defaultOptions (by decide)

/-- Sign behaviour of the formatter model: negating a positive input
prepends a minus sign. -/
theorem ratToDecimal_neg (q : ℚ) (hq : 0 < q) :
    ratToDecimal (-q) = "-" ++ ratToDecimal q := by
  rw [ratToDecimal, ratToDecimal, if_pos (neg_neg_of_pos hq),
    if_neg (not_lt.mpr hq.le), neg_neg]

/-- The formatter model satisfies the sign property expected of the
platform number formatter, for any options record. -/
theorem intlFormatModel_sign (o : HumanizeUnitOptions) (q : ℚ) (hq : 0 < q) :
    formatterOf intlFormatModel o (-q) = "-" ++ formatterOf intlFormatModel o q :=
  ratToDecimal_neg q hq

/-- A character list starting with a dash has the singleton dash list as a
prefix. -/
theorem isPrefixOf_dash (t : List Char) : List.isPrefixOf ['-'] ('-' :: t) = true := by
  simp [List.isPrefixOf]

/-- C7: sign symmetry.  For a finite non-zero value, a non-empty
all-positive unit table, and a formatter that renders the negation of a
positive number by prepending a minus sign (as the platform formatter
does), if the output for `v` does not start with a dash then the output
for `-v` is that output with a dash prepended: selection uses the absolute
value, and scaling divides the signed value. -/
theorem humanizeUnit_sign_symmetry (mkFmt : IntlNumberFormat) (v : ℚ)
    (o : HumanizeUnitOptions) (s : String)
    (hv : v ≠ 0)
    (hne : o.unitsR ≠ [])
    (hpos : ∀ u ∈ o.unitsR, 0 < u.value)
    (hsign : ∀ q : ℚ, 0 < q → formatterOf mkFmt o (-q) = "-" ++ formatterOf mkFmt o q)
    (hok : humanizeUnit mkFmt (some (JSNum.finite v)) o = Except.ok s)
    (hnn : List.isPrefixOf ['-'] s.data = false) :
    humanizeUnit mkFmt (some (JSNum.finite (-v))) o = Except.ok ("-" ++ s) := by
  have hifv : (if v = 0 then (1 : ℚ) else v) = v := if_neg hv
  have hifnv : (if -v = 0 then (1 : ℚ) else -v) = -v := if_neg (neg_ne_zero.mpr hv)
  obtain ⟨u, hsel, _⟩ := selectUnit_spec v o.unitsR hne
  have hu : 0 < u.value := hpos u (selectUnit_mem hsel)
  have hdiv : dividerOf u = u.value := by rw [dividerOf, if_neg hu.ne']
  have hselv : selectUnit (if v = 0 then 1 else v) o.unitsR = Except.ok u := by
    rw [hifv]; exact hsel
  have hselnv : selectUnit (if -v = 0 then 1 else -v) o.unitsR = Except.ok u := by
    rw [hifnv, selectUnit_neg]; exact hsel
  have hfin := humanizeUnit_finite mkFmt v o u hselv
  have hfinn := humanizeUnit_finite mkFmt (-v) o u hselnv
  rw [hok] at hfin
  injection hfin with hs
  have hnd : -v / dividerOf u = -(v / dividerOf u) := neg_div _ _
  rcases lt_or_gt_of_ne hv with hvneg | hvpos
  · exfalso
    have hq : 0 < -(v / dividerOf u) := by
      have hlt : v / dividerOf u < 0 := by
        rw [hdiv]
        exact div_neg_of_neg_of_pos hvneg hu
      linarith
    have hF : formatterOf mkFmt o (v / dividerOf u) =
        "-" ++ formatterOf mkFmt o (-(v / dividerOf u)) := by
      have hh := hsign (-(v / dividerOf u)) hq
      rw [neg_neg] at hh
      exact hh
    rw [hs, hF] at hnn
    have hd : "-".data = ['-'] := rfl
    simp only [String.data_append, hd, List.append_assoc, List.cons_append,
      List.nil_append] at hnn
    rw [isPrefixOf_dash] at hnn
    exact Bool.noConfusion hnn
  · have hq : 0 < v / dividerOf u := by
      rw [hdiv]
      exact div_pos hvpos hu
    rw [hfinn, hnd, hsign _ hq, hs]
    refine congrArg Except.ok ?_
    simp only [String.append_assoc]


/-- Evaluation of the pipeline at `10` with the C7 witness options. -/
theorem humanizeUnit_eval_ten :
    humanizeUnit intlFormatModel (some (JSNum.finite 10)) signTestOptions =
      Except.ok "2Q" := by
  have hsel : selectUnit (if (10 : ℚ) = 0 then 1 else 10) signTestOptions.unitsR =
      Except.ok ⟨5, "Q"⟩ := by decide
  rw [humanizeUnit_finite intlFormatModel 10 signTestOptions ⟨5, "Q"⟩ hsel]
  have hd : (10 : ℚ) / dividerOf ⟨5, "Q"⟩ = 2 := by norm_num [dividerOf]
  rw [hd]
  decide

/-- Witness for C7: formatting `10` gives `2Q`, which does not start with
a dash, and formatting `-10` gives `-2Q`. -/
theorem humanizeUnit_sign_symmetry_witness :
    humanizeUnit intlFormatModel (some (JSNum.finite (-10))) signTestOptions =
      Except.ok ("-" ++ "2Q") :=
  humanizeUnit_sign_symmetry intlFormatModel 10 signTestOptions "2Q"
    (by decide) (by decide) (by decide)
    (fun q hq => intlFormatModel_sign signTestOptions q hq)
    humanizeUnit_eval_ten (by decide)

/-- The descending-by-threshold comparator is transitive. -/
theorem unitLe_trans : ∀ a b c : Unit, decide (b.value ≤ a.value) = true →
    decide (c.value ≤ b.value) = true → decide (c.value ≤ a.value) = true := by
  intro a b c h1 h2
  exact decide_eq_true (le_trans (of_decide_eq_true h2) (of_decide_eq_true h1))

/-- The descending-by-threshold comparator is total. -/
theorem unitLe_total : ∀ a b : Unit,
    (decide (b.value ≤ a.value) || decide (a.value ≤ b.value)) = true := by
  intro a b
  rcases le_total b.value a.value with h | h
  · rw [decide_eq_true h, Bool.true_or]
  · rw [decide_eq_true h, Bool.or_true]

/-- C8: normalization is idempotent on valid tables: for every non-empty
table whose thresholds are all positive, normalization succeeds, and
normalizing the normalized table succeeds again with the same result. -/
theorem normalizeUnits_idempotent (t : UnitArray) (hne : t ≠ [])
    (hpos : ∀ u ∈ t, 0 < u.value) :
    ∃ s, normalizeUnits t = Except.ok s ∧ normalizeUnits s = Except.ok s := by
  have hlen : ¬t.length = 0 := by
    simpa [List.length_eq_zero] using hne
  have hperm := List.mergeSort_perm t (fun a b => decide (b.value ≤ a.value))
  have hany : (t.mergeSort (fun a b => decide (b.value ≤ a.value))).any
      (fun u => decide (u.value ≤ 0)) = false := by
    refine Bool.eq_false_iff.mpr (fun hx => ?_)
    obtain ⟨x, hxmem, hxp⟩ := List.any_eq_true.mp hx
    exact absurd (of_decide_eq_true hxp)
      (not_le.mpr (hpos x (hperm.mem_iff.mp hxmem)))
  have hfirst : normalizeUnits t =
      Except.ok (t.mergeSort (fun a b => decide (b.value ≤ a.value))) := by
    rw [normalizeUnits, if_neg hlen]
    simp only [hany, Bool.false_eq_true, if_false]
  have hsorted : (t.mergeSort (fun a b => decide (b.value ≤ a.value))).Pairwise
      (fun a b => decide (b.value ≤ a.value) = true) :=
    List.sorted_mergeSort unitLe_trans unitLe_total t
  have hms : (t.mergeSort (fun a b => decide (b.value ≤ a.value))).mergeSort
      (fun a b => decide (b.value ≤ a.value)) =
      t.mergeSort (fun a b => decide (b.value ≤ a.value)) :=
    List.mergeSort_of_sorted hsorted
  have hlen2 : ¬(t.mergeSort (fun a b => decide (b.value ≤ a.value))).length = 0 := by
    rw [hperm.length_eq]
    exact hlen
  refine ⟨t.mergeSort (fun a b => decide (b.value ≤ a.value)), hfirst, ?_⟩
  rw [normalizeUnits, if_neg hlen2]
  simp only [hms, hany, Bool.false_eq_true, if_false]

/-- Witness for C8 at a two-entry valid table. -/
theorem normalizeUnits_idempotent_witness :
    ∃ s, normalizeUnits [⟨1000, "k"⟩, ⟨1, ""⟩] = Except.ok s ∧
      normalizeUnits s = Except.ok s :=
  normalizeUnits_idempotent [⟨1000, "k"⟩, ⟨1, ""⟩] (by decide) (by decide)

/-- C10: for every trailing text and exponent options whose range contains
at least one SI exponent, `siUnits` returns a non-empty table, strictly
descending by threshold, in which every threshold is the (positive) power
of ten of an in-range SI exponent and every text is the matching magnitude
letter followed by the trailing text — so the output already satisfies the
formatter's normalized-table invariant. -/
theorem siUnits_normalized (pfx : String) (opts : SiUnitsOptions)
    (h : ∃ p ∈ SI_PREFIXES, opts.minExponent.getD (-9) ≤ p.exponent ∧
      p.exponent ≤ opts.maxExponent.getD 15) :
    siUnits pfx opts ≠ [] ∧
    (siUnits pfx opts).Pairwise (fun a b => b.value < a.value) ∧
    ∀ u ∈ siUnits pfx opts, 0 < u.value ∧
      ∃ p ∈ SI_PREFIXES, opts.minExponent.getD (-9) ≤ p.exponent ∧
        p.exponent ≤ opts.maxExponent.getD 15 ∧
        u.value = (10 : ℚ) ^ p.exponent ∧ u.unit = p.pre ++ pfx := by
  have hPairExp : SI_PREFIXES.Pairwise (fun a b => b.exponent < a.exponent) := by decide
  have hPair1 := hPairExp.filter
    (fun e => decide (opts.minExponent.getD (-9) ≤ e.exponent ∧
      e.exponent ≤ opts.maxExponent.getD 15))
  have hPair2 : ((SI_PREFIXES.filter
      (fun e => decide (opts.minExponent.getD (-9) ≤ e.exponent ∧
        e.exponent ≤ opts.maxExponent.getD 15))).map
      (fun e => (⟨(10 : ℚ) ^ e.exponent, e.pre ++ pfx⟩ : Unit))).Pairwise
      (fun a b => b.value < a.value) := by
    refine List.pairwise_map.mpr (hPair1.imp ?_)
    intro a b hab
    exact zpow_lt_zpow_right₀ (by norm_num) hab
  have hEq : siUnits pfx opts =
      (SI_PREFIXES.filter
        (fun e => decide (opts.minExponent.getD (-9) ≤ e.exponent ∧
          e.exponent ≤ opts.maxExponent.getD 15))).map
        (fun e => (⟨(10 : ℚ) ^ e.exponent, e.pre ++ pfx⟩ : Unit)) := by
    show ((SI_PREFIXES.filter
        (fun e => decide (opts.minExponent.getD (-9) ≤ e.exponent ∧
          e.exponent ≤ opts.maxExponent.getD 15))).map
        (fun e => (⟨(10 : ℚ) ^ e.exponent, e.pre ++ pfx⟩ : Unit))).mergeSort
        (fun a b => decide (b.value ≤ a.value)) = _
    exact List.mergeSort_of_sorted (hPair2.imp (fun hab => decide_eq_true hab.le))
  refine ⟨?_, ?_, ?_⟩
  · obtain ⟨p, hp, hmin, hmax⟩ := h
    have hpf : p ∈ SI_PREFIXES.filter
        (fun e => decide (opts.minExponent.getD (-9) ≤ e.exponent ∧
          e.exponent ≤ opts.maxExponent.getD 15)) :=
      List.mem_filter.mpr ⟨hp, decide_eq_true ⟨hmin, hmax⟩⟩
    have hm : (⟨(10 : ℚ) ^ p.exponent, p.pre ++ pfx⟩ : Unit) ∈
        (SI_PREFIXES.filter
          (fun e => decide (opts.minExponent.getD (-9) ≤ e.exponent ∧
            e.exponent ≤ opts.maxExponent.getD 15))).map
          (fun e => (⟨(10 : ℚ) ^ e.exponent, e.pre ++ pfx⟩ : Unit)) :=
      List.mem_map_of_mem _ hpf
    rw [hEq]
    exact List.ne_nil_of_mem hm
  · rw [hEq]
    exact hPair2
  · intro u hu
    rw [hEq] at hu
    obtain ⟨p, hpf, rfl⟩ := List.mem_map.mp hu
    obtain ⟨hp, hcond⟩ := List.mem_filter.mp hpf
    obtain ⟨hmin, hmax⟩ := of_decide_eq_true hcond
    exact ⟨zpow_pos (by norm_num) _, p, hp, hmin, hmax, rfl, rfl⟩

/-- Witness for C10 at the byte table with default exponent range. -/
theorem siUnits_normalized_witness :
    siUnits "B" ⟨none, none⟩ ≠ [] ∧
    (siUnits "B" ⟨none, none⟩).Pairwise (fun a b => b.value < a.value) ∧
    ∀ u ∈ siUnits "B" ⟨none, none⟩, 0 < u.value ∧
      ∃ p ∈ SI_PREFIXES, (SiUnitsOptions.mk none none).minExponent.getD (-9) ≤ p.exponent ∧
        p.exponent ≤ (SiUnitsOptions.mk none none).maxExponent.getD 15 ∧
        u.value = (10 : ℚ) ^ p.exponent ∧ u.unit = p.pre ++ "B" :=
  siUnits_normalized "B" ⟨none, none⟩ (by decide)

end HumanizeUnits
